import Mathlib

/-!
Shallow embedding of the scalar fallback kernels of MantaRay SIMD.h:
AddToAll (lines 75 to 78), SubtractFromAll (lines 131 to 134),
SubtractAndAddToAll (lines 202 to 207) and ActivateFlattenAndForward
(lines 290 to 301).  Fixed size C++ arrays become Lists; indexing out of
range yields none, so every kernel is Option valued and a successful run
certifies that all accesses were in bounds.  The element type T and the
accumulation type OT are parameters, constrained only by the arithmetic
the source uses, so integer instantiations such as Int and ZMod (2 ^ w)
(wraparound machine integers) are all covered.
-/

namespace MantaRay.SIMD

variable {T OT : Type}

/-- Scalar loop body of AddToAll, one input array at a time: element i of
the input becomes input[i] + delta[k + i], where k is the offset into the
delta array (source line 76 and line 77). -/
def addLoop [Add T] : List T → List T → Nat → Option (List T)
  | [], _, _ => some []
  | x :: xs, delta, k =>
    (delta[k]?).bind fun d =>
      (addLoop xs delta (k + 1)).map fun rest => (x + d) :: rest

/-- Scalar loop body of SubtractFromAll, one input array at a time: element
i of the input becomes input[i] - delta[k + i] (source line 132 and
line 133). -/
def subLoop [Sub T] : List T → List T → Nat → Option (List T)
  | [], _, _ => some []
  | x :: xs, delta, k =>
    (delta[k]?).bind fun d =>
      (subLoop xs delta (k + 1)).map fun rest => (x - d) :: rest

/-- Scalar loop body of SubtractAndAddToAll, one input array at a time:
element i becomes input[i] - delta[kS + i] + delta[kA + i] (source
lines 203 to 206). -/
def subAddLoop [Add T] [Sub T] : List T → List T → Nat → Nat → Option (List T)
  | [], _, _, _ => some []
  | x :: xs, delta, kS, kA =>
    (delta[kS]?).bind fun dS =>
      (delta[kA]?).bind fun dA =>
        (subAddLoop xs delta (kS + 1) (kA + 1)).map fun rest =>
          (x - dS + dA) :: rest

/-- AddToAll, scalar fallback (source lines 75 to 78): adds the delta slice
starting at offset oA into inputA and the slice starting at oB into
inputB, elementwise, in place. -/
def AddToAll [Add T] (inputA inputB delta : List T) (oA oB : Nat) :
    Option (List T × List T) :=
  (addLoop inputA delta oA).bind fun a =>
    (addLoop inputB delta oB).map fun b => (a, b)

/-- SubtractFromAll, scalar fallback (source lines 131 to 134): subtracts
the delta slice starting at offset oA from inputA and the slice starting
at oB from inputB, elementwise, in place. -/
def SubtractFromAll [Sub T] (inputA inputB delta : List T) (oA oB : Nat) :
    Option (List T × List T) :=
  (subLoop inputA delta oA).bind fun a =>
    (subLoop inputB delta oB).map fun b => (a, b)

/-- SubtractAndAddToAll, scalar fallback (source lines 202 to 207): in one
fused pass, inputA[i] = inputA[i] - delta[oAS + i] + delta[oAA + i] and
inputB[i] = inputB[i] - delta[oBS + i] + delta[oBA + i]. -/
def SubtractAndAddToAll [Add T] [Sub T] (inputA inputB delta : List T)
    (oAS oAA oBS oBA : Nat) : Option (List T × List T) :=
  (subAddLoop inputA delta oAS oAA).bind fun a =>
    (subAddLoop inputB delta oBS oBA).map fun b => (a, b)

/-- Inner dot product loop of ActivateFlattenAndForward (source lines 291
to 296): iterates j over the remaining count, accumulating
sum + Activate(inputA[j]) * weight[stride + j]
    + Activate(inputB[j]) * weight[n + stride + j]
in the accumulation type OT, where n is InputSize and f is the numeric
conversion from T to OT that the C++ arithmetic performs implicitly. -/
def dotLoop [Add OT] [Mul OT] (Activate : T → T) (f : T → OT) (n : Nat)
    (inputA inputB weight : List T) (stride : Nat) :
    Nat → Nat → OT → Option OT
  | 0, _, sum => some sum
  | rem + 1, j, sum =>
    (inputA[j]?).bind fun aj =>
      (weight[stride + j]?).bind fun wA =>
        (inputB[j]?).bind fun bj =>
          (weight[n + stride + j]?).bind fun wB =>
            dotLoop Activate f n inputA inputB weight stride rem (j + 1)
              (sum + f (Activate aj) * f wA + f (Activate bj) * f wB)

/-- Bounds checked write output[k] = v, modelling the C++ array store
output[o + i] = ... of source line 299: fails when k is out of range. -/
def setChecked (l : List OT) (k : Nat) (v : OT) : Option (List OT) :=
  if k < l.length then some (l.set k v) else none

/-- Outer loop of ActivateFlattenAndForward (source lines 237, 290 to 301):
for each remaining output neuron at index i, computes the dot product sum
for the current stride, then stores sum + bias[o + i] at output[o + i],
and advances the stride by InputSize * 2 (source line 298). -/
def forwardLoop [Add OT] [Mul OT] [Zero OT] (Activate : T → T) (f : T → OT) (n : Nat)
    (inputA inputB weight bias : List T) (o : Nat) :
    Nat → Nat → Nat → List OT → Option (List OT)
  | 0, _, _, output => some output
  | rem + 1, i, stride, output =>
    (dotLoop Activate f n inputA inputB weight stride n 0 0).bind fun sum =>
      (bias[o + i]?).bind fun b =>
        (setChecked output (o + i) (sum + f b)).bind fun output2 =>
          forwardLoop Activate f n inputA inputB weight bias o rem (i + 1)
            (stride + n * 2) output2

/-- ActivateFlattenAndForward, scalar fallback (source lines 228 to 302):
n is InputSize, m is OutputSize, Activate the activation strategy, f the
implicit numeric conversion from T to the accumulation type OT.  The
stride starts at 0 (source line 236) and the neuron loop runs i from 0 to
m - 1 (source line 237). -/
def ActivateFlattenAndForward [Add OT] [Mul OT] [Zero OT] (Activate : T → T)
    (f : T → OT) (n m : Nat) (inputA inputB weight bias : List T)
    (output : List OT) (o : Nat) : Option (List OT) :=
  forwardLoop Activate f n inputA inputB weight bias o m 0 0 output

example : addLoop ([1, 2] : List Int) [10, 20, 30] 1 = some [21, 32] := by decide

example : SubtractAndAddToAll ([5, 5] : List Int) [7, 7] [1, 2, 3, 4] 0 2 1 0 =
    some ([7, 7], [6, 6]) := by decide

example : ActivateFlattenAndForward (fun x => x) (fun x => x) 2 1
    ([1, 2] : List Int) [3, 4] [1, 1, 1, 1, 1, 1, 1, 1] [5] [0] 0 =
    some [15] := by decide

theorem addLoop_length [Add T] (input delta : List T) (k : Nat) (out : List T)
    (h : addLoop input delta k = some out) : out.length = input.length := by
  induction input generalizing k out with
  | nil =>
    simp only [addLoop, Option.some.injEq] at h
    simp [← h]
  | cons x xs ih =>
    simp only [addLoop, Option.bind_eq_some, Option.map_eq_some'] at h
    obtain ⟨d, hd, rest, hrest, hout⟩ := h
    subst hout
    simp [ih _ _ hrest]

theorem subLoop_length [Sub T] (input delta : List T) (k : Nat) (out : List T)
    (h : subLoop input delta k = some out) : out.length = input.length := by
  induction input generalizing k out with
  | nil =>
    simp only [subLoop, Option.some.injEq] at h
    simp [← h]
  | cons x xs ih =>
    simp only [subLoop, Option.bind_eq_some, Option.map_eq_some'] at h
    obtain ⟨d, hd, rest, hrest, hout⟩ := h
    subst hout
    simp [ih _ _ hrest]

theorem subAddLoop_length [Add T] [Sub T] (input delta : List T) (kS kA : Nat)
    (out : List T) (h : subAddLoop input delta kS kA = some out) :
    out.length = input.length := by
  induction input generalizing kS kA out with
  | nil =>
    simp only [subAddLoop, Option.some.injEq] at h
    simp [← h]
  | cons x xs ih =>
    simp only [subAddLoop, Option.bind_eq_some, Option.map_eq_some'] at h
    obtain ⟨dS, hdS, dA, hdA, rest, hrest, hout⟩ := h
    subst hout
    simp [ih _ _ _ hrest]

theorem addLoop_total [Add T] (input delta : List T) (k : Nat)
    (h : k + input.length ≤ delta.length) :
    ∃ out, addLoop input delta k = some out := by
  induction input generalizing k with
  | nil => exact ⟨[], rfl⟩
  | cons x xs ih =>
    simp only [List.length_cons] at h
    obtain ⟨rest, hrest⟩ := ih (k + 1) (by omega)
    have hk : k < delta.length := by omega
    exact ⟨(x + delta[k]) :: rest,
      by simp [addLoop, List.getElem?_eq_getElem hk, hrest]⟩

theorem subLoop_total [Sub T] (input delta : List T) (k : Nat)
    (h : k + input.length ≤ delta.length) :
    ∃ out, subLoop input delta k = some out := by
  induction input generalizing k with
  | nil => exact ⟨[], rfl⟩
  | cons x xs ih =>
    simp only [List.length_cons] at h
    obtain ⟨rest, hrest⟩ := ih (k + 1) (by omega)
    have hk : k < delta.length := by omega
    exact ⟨(x - delta[k]) :: rest,
      by simp [subLoop, List.getElem?_eq_getElem hk, hrest]⟩

theorem subAddLoop_total [Add T] [Sub T] (input delta : List T) (kS kA : Nat)
    (hS : kS + input.length ≤ delta.length)
    (hA : kA + input.length ≤ delta.length) :
    ∃ out, subAddLoop input delta kS kA = some out := by
  induction input generalizing kS kA with
  | nil => exact ⟨[], rfl⟩
  | cons x xs ih =>
    simp only [List.length_cons] at hS hA
    obtain ⟨rest, hrest⟩ := ih (kS + 1) (kA + 1) (by omega) (by omega)
    have hkS : kS < delta.length := by omega
    have hkA : kA < delta.length := by omega
    exact ⟨(x - delta[kS] + delta[kA]) :: rest,
      by simp [subAddLoop, List.getElem?_eq_getElem hkS,
               List.getElem?_eq_getElem hkA, hrest]⟩

theorem addLoop_get [Add T] (input delta : List T) (k : Nat) (out : List T)
    (h : addLoop input delta k = some out) :
    ∀ i x, input[i]? = some x →
      ∃ d, delta[k + i]? = some d ∧ out[i]? = some (x + d) := by
  induction input generalizing k out with
  | nil => intro i x hx; simp at hx
  | cons y xs ih =>
    simp only [addLoop, Option.bind_eq_some, Option.map_eq_some'] at h
    obtain ⟨d, hd, rest, hrest, hout⟩ := h
    subst hout
    intro i x hx
    cases i with
    | zero =>
      simp only [List.getElem?_cons_zero, Option.some.injEq] at hx
      subst hx
      exact ⟨d, by simpa using hd, by simp⟩
    | succ n =>
      simp only [List.getElem?_cons_succ] at hx
      obtain ⟨d2, hd2, hout2⟩ := ih _ _ hrest n x hx
      refine ⟨d2, ?_, by simpa using hout2⟩
      rw [show k + (n + 1) = k + 1 + n by omega]
      exact hd2

theorem subLoop_get [Sub T] (input delta : List T) (k : Nat) (out : List T)
    (h : subLoop input delta k = some out) :
    ∀ i x, input[i]? = some x →
      ∃ d, delta[k + i]? = some d ∧ out[i]? = some (x - d) := by
  induction input generalizing k out with
  | nil => intro i x hx; simp at hx
  | cons y xs ih =>
    simp only [subLoop, Option.bind_eq_some, Option.map_eq_some'] at h
    obtain ⟨d, hd, rest, hrest, hout⟩ := h
    subst hout
    intro i x hx
    cases i with
    | zero =>
      simp only [List.getElem?_cons_zero, Option.some.injEq] at hx
      subst hx
      exact ⟨d, by simpa using hd, by simp⟩
    | succ n =>
      simp only [List.getElem?_cons_succ] at hx
      obtain ⟨d2, hd2, hout2⟩ := ih _ _ hrest n x hx
      refine ⟨d2, ?_, by simpa using hout2⟩
      rw [show k + (n + 1) = k + 1 + n by omega]
      exact hd2

theorem subAddLoop_get [Add T] [Sub T] (input delta : List T) (kS kA : Nat)
    (out : List T) (h : subAddLoop input delta kS kA = some out) :
    ∀ i x, input[i]? = some x →
      ∃ dS dA, delta[kS + i]? = some dS ∧ delta[kA + i]? = some dA ∧
        out[i]? = some (x - dS + dA) := by
  induction input generalizing kS kA out with
  | nil => intro i x hx; simp at hx
  | cons y xs ih =>
    simp only [subAddLoop, Option.bind_eq_some, Option.map_eq_some'] at h
    obtain ⟨dS, hdS, dA, hdA, rest, hrest, hout⟩ := h
    subst hout
    intro i x hx
    cases i with
    | zero =>
      simp only [List.getElem?_cons_zero, Option.some.injEq] at hx
      subst hx
      exact ⟨dS, dA, by simpa using hdS, by simpa using hdA, by simp⟩
    | succ n =>
      simp only [List.getElem?_cons_succ] at hx
      obtain ⟨d2S, d2A, hd2S, hd2A, hout2⟩ := ih _ _ _ hrest n x hx
      refine ⟨d2S, d2A, ?_, ?_, by simpa using hout2⟩
      · rw [show kS + (n + 1) = kS + 1 + n by omega]
        exact hd2S
      · rw [show kA + (n + 1) = kA + 1 + n by omega]
        exact hd2A

theorem subLoop_addLoop [AddGroup T] (input delta : List T) (k : Nat)
    (out : List T) (h : addLoop input delta k = some out) :
    subLoop out delta k = some input := by
  induction input generalizing k out with
  | nil =>
    simp only [addLoop, Option.some.injEq] at h
    simp [← h, subLoop]
  | cons x xs ih =>
    simp only [addLoop, Option.bind_eq_some, Option.map_eq_some'] at h
    obtain ⟨d, hd, rest, hrest, hout⟩ := h
    subst hout
    simp [subLoop, hd, ih _ _ hrest, add_sub_cancel_right]

theorem subAddLoop_eq_subLoop_addLoop [Add T] [Sub T] (input delta : List T)
    (kS kA : Nat) :
    subAddLoop input delta kS kA =
      (subLoop input delta kS).bind fun y => addLoop y delta kA := by
  induction input generalizing kS kA with
  | nil => simp [subAddLoop, subLoop, addLoop]
  | cons x xs ih =>
    simp only [subAddLoop, subLoop, ih]
    cases hS : delta[kS]? with
    | none => simp
    | some dS =>
      cases hrec : subLoop xs delta (kS + 1) with
      | none =>
        cases hA : delta[kA]? with
        | none => simp [hA]
        | some dA => simp [hA]
      | some ys =>
        cases hA : delta[kA]? with
        | none => simp [addLoop, hA]
        | some dA => simp [addLoop, hA]

theorem addLoop_zero_delta [AddGroup T] (input delta : List T) (k : Nat)
    (hz : ∀ i, i < input.length → delta[k + i]? = some 0) :
    addLoop input delta k = some input := by
  induction input generalizing k with
  | nil => rfl
  | cons x xs ih =>
    have h0 : delta[k]? = some 0 := by simpa using hz 0 (by simp)
    have hxs : addLoop xs delta (k + 1) = some xs := by
      refine ih (k + 1) fun i hi => ?_
      rw [show k + 1 + i = k + (i + 1) by omega]
      exact hz (i + 1) (by simpa using hi)
    simp [addLoop, h0, hxs]

theorem subLoop_zero_delta [AddGroup T] (input delta : List T) (k : Nat)
    (hz : ∀ i, i < input.length → delta[k + i]? = some 0) :
    subLoop input delta k = some input := by
  induction input generalizing k with
  | nil => rfl
  | cons x xs ih =>
    have h0 : delta[k]? = some 0 := by simpa using hz 0 (by simp)
    have hxs : subLoop xs delta (k + 1) = some xs := by
      refine ih (k + 1) fun i hi => ?_
      rw [show k + 1 + i = k + (i + 1) by omega]
      exact hz (i + 1) (by simpa using hi)
    simp [subLoop, h0, hxs]

theorem subAddLoop_same_offsets [AddGroup T] (input delta : List T) (k : Nat)
    (h : k + input.length ≤ delta.length) :
    subAddLoop input delta k k = some input := by
  induction input generalizing k with
  | nil => rfl
  | cons x xs ih =>
    simp only [List.length_cons] at h
    have hk : k < delta.length := by omega
    have hxs : subAddLoop xs delta (k + 1) (k + 1) = some xs := ih (k + 1) (by omega)
    simp [subAddLoop, List.getElem?_eq_getElem hk, hxs, sub_add_cancel]

theorem addLoop_addLoop [AddSemigroup T] (input delta delta2 : List T)
    (k1 k2 k3 : Nat) (a1 a2 : List T)
    (h1 : addLoop input delta k1 = some a1)
    (h2 : addLoop a1 delta k2 = some a2)
    (hs : ∀ i, i < input.length →
      delta2[k3 + i]? = (delta[k1 + i]?).bind fun d1 =>
        (delta[k2 + i]?).map fun d2 => d1 + d2) :
    addLoop input delta2 k3 = some a2 := by
  induction input generalizing k1 k2 k3 a1 a2 with
  | nil =>
    simp only [addLoop, Option.some.injEq] at h1
    subst h1
    simp only [addLoop, Option.some.injEq] at h2
    simp [← h2, addLoop]
  | cons x xs ih =>
    simp only [addLoop, Option.bind_eq_some, Option.map_eq_some'] at h1
    obtain ⟨d1, hd1, rest1, hrest1, hout1⟩ := h1
    subst hout1
    simp only [addLoop, Option.bind_eq_some, Option.map_eq_some'] at h2
    obtain ⟨d2, hd2, rest2, hrest2, hout2⟩ := h2
    subst hout2
    have hd3 : delta2[k3]? = some (d1 + d2) := by
      have h0 := hs 0 (by simp)
      simp only [Nat.add_zero] at h0
      rw [h0, hd1, hd2]
      rfl
    have hrec : addLoop xs delta2 (k3 + 1) = some rest2 := by
      refine ih (k1 + 1) (k2 + 1) (k3 + 1) rest1 rest2 hrest1 hrest2 ?_
      intro i hi
      have h0 := hs (i + 1) (by simpa using hi)
      rw [show k3 + 1 + i = k3 + (i + 1) by omega,
        show k1 + 1 + i = k1 + (i + 1) by omega,
        show k2 + 1 + i = k2 + (i + 1) by omega]
      exact h0
    simp [addLoop, hd3, hrec, add_assoc]

/-- Claim C2: under the in bounds preconditions, SubtractAndAddToAll succeeds
and, for every index i, the new inputA[i] equals old inputA[i] - delta[oAS+i]
+ delta[oAA+i], and the new inputB[i] equals old inputB[i] - delta[oBS+i]
+ delta[oBA+i]; delta is a read only argument of the embedding, hence
unchanged. -/
theorem SubtractAndAddToAll_pointwise [Add T] [Sub T]
    (inputA inputB delta : List T) (oAS oAA oBS oBA : Nat)
    (hAS : oAS + inputA.length ≤ delta.length)
    (hAA : oAA + inputA.length ≤ delta.length)
    (hBS : oBS + inputB.length ≤ delta.length)
    (hBA : oBA + inputB.length ≤ delta.length) :
    ∃ a b, SubtractAndAddToAll inputA inputB delta oAS oAA oBS oBA = some (a, b) ∧
      a.length = inputA.length ∧ b.length = inputB.length ∧
      (∀ i x, inputA[i]? = some x → ∃ dS dA, delta[oAS + i]? = some dS ∧
        delta[oAA + i]? = some dA ∧ a[i]? = some (x - dS + dA)) ∧
      (∀ i x, inputB[i]? = some x → ∃ dS dA, delta[oBS + i]? = some dS ∧
        delta[oBA + i]? = some dA ∧ b[i]? = some (x - dS + dA)) := by
  obtain ⟨a, ha⟩ := subAddLoop_total inputA delta oAS oAA hAS hAA
  obtain ⟨b, hb⟩ := subAddLoop_total inputB delta oBS oBA hBS hBA
  exact ⟨a, b, by simp [SubtractAndAddToAll, ha, hb],
    subAddLoop_length _ _ _ _ _ ha, subAddLoop_length _ _ _ _ _ hb,
    subAddLoop_get _ _ _ _ _ ha, subAddLoop_get _ _ _ _ _ hb⟩

theorem SubtractAndAddToAll_pointwise_witness :
    (0 + ([5] : List Int).length ≤ ([1, 2, 3, 4] : List Int).length ∧
     1 + ([5] : List Int).length ≤ ([1, 2, 3, 4] : List Int).length ∧
     2 + ([7] : List Int).length ≤ ([1, 2, 3, 4] : List Int).length ∧
     3 + ([7] : List Int).length ≤ ([1, 2, 3, 4] : List Int).length) ∧
    (∃ a b, SubtractAndAddToAll ([5] : List Int) [7] [1, 2, 3, 4] 0 1 2 3 =
        some (a, b) ∧
      a.length = ([5] : List Int).length ∧ b.length = ([7] : List Int).length ∧
      (∀ i x, ([5] : List Int)[i]? = some x →
        ∃ dS dA, ([1, 2, 3, 4] : List Int)[0 + i]? = some dS ∧
          ([1, 2, 3, 4] : List Int)[1 + i]? = some dA ∧ a[i]? = some (x - dS + dA)) ∧
      (∀ i x, ([7] : List Int)[i]? = some x →
        ∃ dS dA, ([1, 2, 3, 4] : List Int)[2 + i]? = some dS ∧
          ([1, 2, 3, 4] : List Int)[3 + i]? = some dA ∧ b[i]? = some (x - dS + dA))) :=
  ⟨⟨by decide, by decide, by decide, by decide⟩,
    SubtractAndAddToAll_pointwise [5] [7] [1, 2, 3, 4] 0 1 2 3
      (by decide) (by decide) (by decide) (by decide)⟩

/-- Claim C3: under the in bounds preconditions, AddToAll succeeds and adds
the delta slices elementwise into the two accumulators, and SubtractFromAll
succeeds and subtracts them elementwise; delta is a read only argument of
the embedding, hence unchanged. -/
theorem AddToAll_SubtractFromAll_pointwise [Add T] [Sub T]
    (inputA inputB delta : List T) (oA oB : Nat)
    (hA : oA + inputA.length ≤ delta.length)
    (hB : oB + inputB.length ≤ delta.length) :
    (∃ a b, AddToAll inputA inputB delta oA oB = some (a, b) ∧
      a.length = inputA.length ∧ b.length = inputB.length ∧
      (∀ i x, inputA[i]? = some x →
        ∃ d, delta[oA + i]? = some d ∧ a[i]? = some (x + d)) ∧
      (∀ i x, inputB[i]? = some x →
        ∃ d, delta[oB + i]? = some d ∧ b[i]? = some (x + d))) ∧
    (∃ a b, SubtractFromAll inputA inputB delta oA oB = some (a, b) ∧
      a.length = inputA.length ∧ b.length = inputB.length ∧
      (∀ i x, inputA[i]? = some x →
        ∃ d, delta[oA + i]? = some d ∧ a[i]? = some (x - d)) ∧
      (∀ i x, inputB[i]? = some x →
        ∃ d, delta[oB + i]? = some d ∧ b[i]? = some (x - d))) := by
  obtain ⟨a, ha⟩ := addLoop_total inputA delta oA hA
  obtain ⟨b, hb⟩ := addLoop_total inputB delta oB hB
  obtain ⟨a2, ha2⟩ := subLoop_total inputA delta oA hA
  obtain ⟨b2, hb2⟩ := subLoop_total inputB delta oB hB
  exact ⟨⟨a, b, by simp [AddToAll, ha, hb],
      addLoop_length _ _ _ _ ha, addLoop_length _ _ _ _ hb,
      addLoop_get _ _ _ _ ha, addLoop_get _ _ _ _ hb⟩,
    ⟨a2, b2, by simp [SubtractFromAll, ha2, hb2],
      subLoop_length _ _ _ _ ha2, subLoop_length _ _ _ _ hb2,
      subLoop_get _ _ _ _ ha2, subLoop_get _ _ _ _ hb2⟩⟩

theorem AddToAll_SubtractFromAll_pointwise_witness :
    (1 + ([5, 6] : List Int).length ≤ ([1, 2, 3, 4] : List Int).length ∧
     2 + ([7, 8] : List Int).length ≤ ([1, 2, 3, 4] : List Int).length) ∧
    ((∃ a b, AddToAll ([5, 6] : List Int) [7, 8] [1, 2, 3, 4] 1 2 = some (a, b) ∧
      a.length = ([5, 6] : List Int).length ∧ b.length = ([7, 8] : List Int).length ∧
      (∀ i x, ([5, 6] : List Int)[i]? = some x →
        ∃ d, ([1, 2, 3, 4] : List Int)[1 + i]? = some d ∧ a[i]? = some (x + d)) ∧
      (∀ i x, ([7, 8] : List Int)[i]? = some x →
        ∃ d, ([1, 2, 3, 4] : List Int)[2 + i]? = some d ∧ b[i]? = some (x + d))) ∧
    (∃ a b, SubtractFromAll ([5, 6] : List Int) [7, 8] [1, 2, 3, 4] 1 2 = some (a, b) ∧
      a.length = ([5, 6] : List Int).length ∧ b.length = ([7, 8] : List Int).length ∧
      (∀ i x, ([5, 6] : List Int)[i]? = some x →
        ∃ d, ([1, 2, 3, 4] : List Int)[1 + i]? = some d ∧ a[i]? = some (x - d)) ∧
      (∀ i x, ([7, 8] : List Int)[i]? = some x →
        ∃ d, ([1, 2, 3, 4] : List Int)[2 + i]? = some d ∧ b[i]? = some (x - d)))) :=
  ⟨⟨by decide, by decide⟩,
    AddToAll_SubtractFromAll_pointwise [5, 6] [7, 8] [1, 2, 3, 4] 1 2
      (by decide) (by decide)⟩

/-- Claim C4: one SubtractAndAddToAll call produces exactly the final state of
SubtractFromAll with the subtract offsets followed by AddToAll with the add
offsets on the same starting state; the equality holds unconditionally in
the Option embedding, in particular for all in bounds offsets. -/
theorem SubtractAndAddToAll_fusion [Add T] [Sub T] (inputA inputB delta : List T)
    (oAS oAA oBS oBA : Nat) :
    SubtractAndAddToAll inputA inputB delta oAS oAA oBS oBA =
      (SubtractFromAll inputA inputB delta oAS oBS).bind fun p =>
        AddToAll p.1 p.2 delta oAA oBA := by
  simp only [SubtractAndAddToAll, SubtractFromAll, AddToAll,
    subAddLoop_eq_subLoop_addLoop]
  cases subLoop inputA delta oAS <;> cases subLoop inputB delta oBS <;> simp

/-- Claim C5: with the same offsets, AddToAll followed by SubtractFromAll
restores both accumulators exactly; T is any additive group, covering both
Int and the wraparound integers ZMod (2 ^ w). -/
theorem AddToAll_SubtractFromAll_roundtrip [AddGroup T]
    (inputA inputB delta : List T) (oA oB : Nat)
    (hA : oA + inputA.length ≤ delta.length)
    (hB : oB + inputB.length ≤ delta.length) :
    ∃ a b, AddToAll inputA inputB delta oA oB = some (a, b) ∧
      SubtractFromAll a b delta oA oB = some (inputA, inputB) := by
  obtain ⟨a, ha⟩ := addLoop_total inputA delta oA hA
  obtain ⟨b, hb⟩ := addLoop_total inputB delta oB hB
  exact ⟨a, b, by simp [AddToAll, ha, hb],
    by simp [SubtractFromAll, subLoop_addLoop _ _ _ _ ha,
      subLoop_addLoop _ _ _ _ hb]⟩

theorem AddToAll_SubtractFromAll_roundtrip_witness :
    (0 + ([5, 6] : List Int).length ≤ ([1, 2, 3] : List Int).length ∧
     1 + ([7, 8] : List Int).length ≤ ([1, 2, 3] : List Int).length) ∧
    (∃ a b, AddToAll ([5, 6] : List Int) [7, 8] [1, 2, 3] 0 1 = some (a, b) ∧
      SubtractFromAll a b [1, 2, 3] 0 1 = some ([5, 6], [7, 8])) :=
  ⟨⟨by decide, by decide⟩,
    AddToAll_SubtractFromAll_roundtrip [5, 6] [7, 8] [1, 2, 3] 0 1
      (by decide) (by decide)⟩

/-- Claim C7: two AddToAll calls with offsets o1 then o2 on zero initialized
accumulators give the same final state as one AddToAll call against a delta
table whose slice at o3 is the elementwise sum of the slice at o1 and the
slice at o2. -/
theorem AddToAll_offset_composable [AddMonoid T] (n : Nat)
    (delta delta2 : List T) (o1 o2 o3 : Nat) (a1 b1 a2 b2 : List T)
    (h1 : AddToAll (List.replicate n (0 : T)) (List.replicate n 0) delta o1 o1 =
      some (a1, b1))
    (h2 : AddToAll a1 b1 delta o2 o2 = some (a2, b2))
    (hs : ∀ i, i < n → delta2[o3 + i]? = (delta[o1 + i]?).bind fun d1 =>
      (delta[o2 + i]?).map fun d2 => d1 + d2) :
    AddToAll (List.replicate n (0 : T)) (List.replicate n 0) delta2 o3 o3 =
      some (a2, b2) := by
  simp only [AddToAll, Option.bind_eq_some, Option.map_eq_some',
    Prod.mk.injEq] at h1 h2
  obtain ⟨x1, hx1, y1, hy1, rfl, rfl⟩ := h1
  obtain ⟨x2, hx2, y2, hy2, rfl, rfl⟩ := h2
  have hsL : ∀ i, i < (List.replicate n (0 : T)).length →
      delta2[o3 + i]? = (delta[o1 + i]?).bind fun d1 =>
        (delta[o2 + i]?).map fun d2 => d1 + d2 := by
    simpa using hs
  have hA := addLoop_addLoop _ _ _ _ _ _ _ _ hx1 hx2 hsL
  have hB := addLoop_addLoop _ _ _ _ _ _ _ _ hy1 hy2 hsL
  have hxy : x2 = y2 := by
    rw [hA] at hB
    exact Option.some.inj hB
  subst hxy
  simp [AddToAll, hA]

theorem AddToAll_offset_composable_witness :
    (AddToAll (List.replicate 1 (0 : Int)) (List.replicate 1 0) [10, 20] 0 0 =
      some ([10], [10])) ∧
    (AddToAll ([10] : List Int) [10] [10, 20] 1 1 = some ([30], [30])) ∧
    (∀ i, i < 1 → (([30] : List Int))[0 + i]? =
      (([10, 20] : List Int)[0 + i]?).bind fun d1 =>
        (([10, 20] : List Int)[1 + i]?).map fun d2 => d1 + d2) ∧
    (AddToAll (List.replicate 1 (0 : Int)) (List.replicate 1 0) [30] 0 0 =
      some ([30], [30])) :=
  ⟨by decide, by decide, by decide,
    AddToAll_offset_composable 1 [10, 20] [30] 0 1 0 [10] [10] [30] [30]
      (by decide) (by decide) (by decide)⟩

/-- Claim C8: when the addressed delta slices are all zero, AddToAll and
SubtractFromAll both leave the two accumulators exactly unchanged. -/
theorem zero_delta_identity [AddGroup T] (inputA inputB delta : List T)
    (oA oB : Nat)
    (hzA : ∀ i, i < inputA.length → delta[oA + i]? = some 0)
    (hzB : ∀ i, i < inputB.length → delta[oB + i]? = some 0) :
    AddToAll inputA inputB delta oA oB = some (inputA, inputB) ∧
    SubtractFromAll inputA inputB delta oA oB = some (inputA, inputB) := by
  refine ⟨?_, ?_⟩
  · simp [AddToAll, addLoop_zero_delta _ _ _ hzA, addLoop_zero_delta _ _ _ hzB]
  · simp [SubtractFromAll, subLoop_zero_delta _ _ _ hzA,
      subLoop_zero_delta _ _ _ hzB]

theorem zero_delta_identity_witness :
    (∀ i, i < ([3, 4] : List Int).length →
      (([0, 0, 0] : List Int))[0 + i]? = some 0) ∧
    (∀ i, i < ([5, 6] : List Int).length →
      (([0, 0, 0] : List Int))[1 + i]? = some 0) ∧
    (AddToAll ([3, 4] : List Int) [5, 6] [0, 0, 0] 0 1 = some ([3, 4], [5, 6]) ∧
     SubtractFromAll ([3, 4] : List Int) [5, 6] [0, 0, 0] 0 1 =
       some ([3, 4], [5, 6])) :=
  ⟨by decide, by decide,
    zero_delta_identity [3, 4] [5, 6] [0, 0, 0] 0 1 (by decide) (by decide)⟩

/-- Claim C9: SubtractAndAddToAll with equal subtract and add offsets per
accumulator leaves both accumulators exactly unchanged, since each element
receives minus delta and then plus the same delta. -/
theorem SubtractAndAddToAll_equal_offsets_identity [AddGroup T]
    (inputA inputB delta : List T) (o1 o2 : Nat)
    (h1 : o1 + inputA.length ≤ delta.length)
    (h2 : o2 + inputB.length ≤ delta.length) :
    SubtractAndAddToAll inputA inputB delta o1 o1 o2 o2 =
      some (inputA, inputB) := by
  simp [SubtractAndAddToAll, subAddLoop_same_offsets _ _ _ h1,
    subAddLoop_same_offsets _ _ _ h2]

theorem SubtractAndAddToAll_equal_offsets_identity_witness :
    (0 + ([5] : List Int).length ≤ ([1, 2, 3] : List Int).length ∧
     1 + ([7] : List Int).length ≤ ([1, 2, 3] : List Int).length) ∧
    SubtractAndAddToAll ([5] : List Int) [7] [1, 2, 3] 0 0 1 1 =
      some ([5], [7]) :=
  ⟨⟨by decide, by decide⟩,
    SubtractAndAddToAll_equal_offsets_identity [5] [7] [1, 2, 3] 0 1
      (by decide) (by decide)⟩

/-- Claim C10: for each of the three update kernels, the final inputA is a
function of the initial inputA, the delta table and the A side offsets
alone, and the final inputB is a function of the initial inputB, the delta
table and the B side offsets alone: two successful runs that agree on one
side produce identical results on that side. -/
theorem perspective_noninterference [Add T] [Sub T] :
    (∀ (inputA inputB1 inputB2 delta : List T) (oA oB1 oB2 : Nat)
        (a1 b1 a2 b2 : List T),
      AddToAll inputA inputB1 delta oA oB1 = some (a1, b1) →
      AddToAll inputA inputB2 delta oA oB2 = some (a2, b2) → a1 = a2) ∧
    (∀ (inputA1 inputA2 inputB delta : List T) (oA1 oA2 oB : Nat)
        (a1 b1 a2 b2 : List T),
      AddToAll inputA1 inputB delta oA1 oB = some (a1, b1) →
      AddToAll inputA2 inputB delta oA2 oB = some (a2, b2) → b1 = b2) ∧
    (∀ (inputA inputB1 inputB2 delta : List T) (oA oB1 oB2 : Nat)
        (a1 b1 a2 b2 : List T),
      SubtractFromAll inputA inputB1 delta oA oB1 = some (a1, b1) →
      SubtractFromAll inputA inputB2 delta oA oB2 = some (a2, b2) → a1 = a2) ∧
    (∀ (inputA1 inputA2 inputB delta : List T) (oA1 oA2 oB : Nat)
        (a1 b1 a2 b2 : List T),
      SubtractFromAll inputA1 inputB delta oA1 oB = some (a1, b1) →
      SubtractFromAll inputA2 inputB delta oA2 oB = some (a2, b2) → b1 = b2) ∧
    (∀ (inputA inputB1 inputB2 delta : List T) (oAS oAA oBS1 oBA1 oBS2 oBA2 : Nat)
        (a1 b1 a2 b2 : List T),
      SubtractAndAddToAll inputA inputB1 delta oAS oAA oBS1 oBA1 = some (a1, b1) →
      SubtractAndAddToAll inputA inputB2 delta oAS oAA oBS2 oBA2 = some (a2, b2) →
      a1 = a2) ∧
    (∀ (inputA1 inputA2 inputB delta : List T) (oAS1 oAA1 oAS2 oAA2 oBS oBA : Nat)
        (a1 b1 a2 b2 : List T),
      SubtractAndAddToAll inputA1 inputB delta oAS1 oAA1 oBS oBA = some (a1, b1) →
      SubtractAndAddToAll inputA2 inputB delta oAS2 oAA2 oBS oBA = some (a2, b2) →
      b1 = b2) := by
  refine ⟨?_, ?_, ?_, ?_, ?_, ?_⟩
  · intro inputA inputB1 inputB2 delta oA oB1 oB2 a1 b1 a2 b2 h1 h2
    simp only [AddToAll, Option.bind_eq_some, Option.map_eq_some',
      Prod.mk.injEq] at h1 h2
    obtain ⟨x1, hx1, y1, hy1, rfl, rfl⟩ := h1
    obtain ⟨x2, hx2, y2, hy2, rfl, rfl⟩ := h2
    rw [hx1] at hx2
    exact Option.some.inj hx2
  · intro inputA1 inputA2 inputB delta oA1 oA2 oB a1 b1 a2 b2 h1 h2
    simp only [AddToAll, Option.bind_eq_some, Option.map_eq_some',
      Prod.mk.injEq] at h1 h2
    obtain ⟨x1, hx1, y1, hy1, rfl, rfl⟩ := h1
    obtain ⟨x2, hx2, y2, hy2, rfl, rfl⟩ := h2
    rw [hy1] at hy2
    exact Option.some.inj hy2
  · intro inputA inputB1 inputB2 delta oA oB1 oB2 a1 b1 a2 b2 h1 h2
    simp only [SubtractFromAll, Option.bind_eq_some, Option.map_eq_some',
      Prod.mk.injEq] at h1 h2
    obtain ⟨x1, hx1, y1, hy1, rfl, rfl⟩ := h1
    obtain ⟨x2, hx2, y2, hy2, rfl, rfl⟩ := h2
    rw [hx1] at hx2
    exact Option.some.inj hx2
  · intro inputA1 inputA2 inputB delta oA1 oA2 oB a1 b1 a2 b2 h1 h2
    simp only [SubtractFromAll, Option.bind_eq_some, Option.map_eq_some',
      Prod.mk.injEq] at h1 h2
    obtain ⟨x1, hx1, y1, hy1, rfl, rfl⟩ := h1
    obtain ⟨x2, hx2, y2, hy2, rfl, rfl⟩ := h2
    rw [hy1] at hy2
    exact Option.some.inj hy2
  · intro inputA inputB1 inputB2 delta oAS oAA oBS1 oBA1 oBS2 oBA2 a1 b1 a2 b2 h1 h2
    simp only [SubtractAndAddToAll, Option.bind_eq_some, Option.map_eq_some',
      Prod.mk.injEq] at h1 h2
    obtain ⟨x1, hx1, y1, hy1, rfl, rfl⟩ := h1
    obtain ⟨x2, hx2, y2, hy2, rfl, rfl⟩ := h2
    rw [hx1] at hx2
    exact Option.some.inj hx2
  · intro inputA1 inputA2 inputB delta oAS1 oAA1 oAS2 oAA2 oBS oBA a1 b1 a2 b2 h1 h2
    simp only [SubtractAndAddToAll, Option.bind_eq_some, Option.map_eq_some',
      Prod.mk.injEq] at h1 h2
    obtain ⟨x1, hx1, y1, hy1, rfl, rfl⟩ := h1
    obtain ⟨x2, hx2, y2, hy2, rfl, rfl⟩ := h2
    rw [hy1] at hy2
    exact Option.some.inj hy2

theorem perspective_noninterference_witness :
    (AddToAll ([1] : List Int) [2] [10, 20] 0 1 = some ([11], [22])) ∧
    (AddToAll ([1] : List Int) [3] [10, 20] 0 0 = some ([11], [13])) ∧
    ([11] : List Int) = [11] :=
  ⟨by decide, by decide,
    (perspective_noninterference (T := Int)).1 [1] [2] [3] [10, 20] 0 1 0
      [11] [22] [11] [13] (by decide) (by decide)⟩

theorem dotLoop_eq_sum [AddCommMonoid OT] [Mul OT] (Activate : T → T)
    (f : T → OT) (n : Nat) (inputA inputB weight : List T) (stride : Nat)
    (dT : T) (rem : Nat) :
    ∀ (j : Nat) (sum : OT), j + rem ≤ inputA.length → j + rem ≤ inputB.length →
      stride + j + rem ≤ weight.length → n + stride + j + rem ≤ weight.length →
      dotLoop Activate f n inputA inputB weight stride rem j sum =
        some (sum + (Finset.range rem).sum fun t =>
          f (Activate (inputA.getD (j + t) dT)) *
            f (weight.getD (stride + (j + t)) dT) +
          f (Activate (inputB.getD (j + t) dT)) *
            f (weight.getD (n + stride + (j + t)) dT)) := by
  induction rem with
  | zero => intro j sum hA hB hw1 hw2; simp [dotLoop]
  | succ rem ih =>
    intro j sum hA hB hw1 hw2
    have hAj : j < inputA.length := by omega
    have hBj : j < inputB.length := by omega
    have hw1j : stride + j < weight.length := by omega
    have hw2j : n + stride + j < weight.length := by omega
    rw [dotLoop, List.getElem?_eq_getElem hAj, Option.some_bind,
      List.getElem?_eq_getElem hw1j, Option.some_bind,
      List.getElem?_eq_getElem hBj, Option.some_bind,
      List.getElem?_eq_getElem hw2j, Option.some_bind,
      ih (j + 1) _ (by omega) (by omega) (by omega) (by omega)]
    congr 1
    have hcongr : ((Finset.range rem).sum fun t =>
        f (Activate (inputA.getD (j + (t + 1)) dT)) *
          f (weight.getD (stride + (j + (t + 1))) dT) +
        f (Activate (inputB.getD (j + (t + 1)) dT)) *
          f (weight.getD (n + stride + (j + (t + 1))) dT)) =
        (Finset.range rem).sum fun t =>
          f (Activate (inputA.getD (j + 1 + t) dT)) *
            f (weight.getD (stride + (j + 1 + t)) dT) +
          f (Activate (inputB.getD (j + 1 + t) dT)) *
            f (weight.getD (n + stride + (j + 1 + t)) dT) :=
      Finset.sum_congr rfl fun t ht => by
        rw [show j + (t + 1) = j + 1 + t from by omega]
    simp only [Finset.sum_range_succ']
    rw [hcongr]
    simp only [Nat.add_zero, List.getD_eq_getElem?_getD,
      List.getElem?_eq_getElem hAj, List.getElem?_eq_getElem hBj,
      List.getElem?_eq_getElem hw1j, List.getElem?_eq_getElem hw2j,
      Option.getD_some]
    abel

theorem dotLoop_eq_sum_zero [AddCommMonoid OT] [Mul OT] (Activate : T → T)
    (f : T → OT) (n : Nat) (inputA inputB weight : List T) (stride : Nat)
    (dT : T) (hA : n ≤ inputA.length) (hB : n ≤ inputB.length)
    (hw1 : stride + n ≤ weight.length) (hw2 : n + stride + n ≤ weight.length) :
    dotLoop Activate f n inputA inputB weight stride n 0 0 =
      some ((Finset.range n).sum fun t =>
        f (Activate (inputA.getD t dT)) * f (weight.getD (stride + t) dT) +
        f (Activate (inputB.getD t dT)) * f (weight.getD (n + stride + t) dT)) := by
  rw [dotLoop_eq_sum Activate f n inputA inputB weight stride dT n 0 0
    (by omega) (by omega) (by omega) (by omega), zero_add]
  congr 1
  exact Finset.sum_congr rfl fun t ht => by simp only [Nat.zero_add]

theorem forwardLoop_eq [AddCommMonoid OT] [Mul OT] (Activate : T → T) (f : T → OT)
    (n : Nat) (inputA inputB weight bias : List T) (o : Nat) (dT : T)
    (hA : n ≤ inputA.length) (hB : n ≤ inputB.length) :
    ∀ (rem i stride : Nat) (output : List OT),
      stride + rem * (n * 2) ≤ weight.length →
      o + i + rem ≤ bias.length → o + i + rem ≤ output.length →
      ∃ out, forwardLoop Activate f n inputA inputB weight bias o rem i stride output
          = some out ∧
        out.length = output.length ∧
        (∀ k, k < o + i → out[k]? = output[k]?) ∧
        (∀ k, o + i + rem ≤ k → out[k]? = output[k]?) ∧
        (∀ t, t < rem → out[o + i + t]? = some
          ((Finset.range n).sum (fun j =>
            f (Activate (inputA.getD j dT)) *
              f (weight.getD (stride + t * (n * 2) + j) dT) +
            f (Activate (inputB.getD j dT)) *
              f (weight.getD (n + (stride + t * (n * 2)) + j) dT)) +
           f (bias.getD (o + i + t) dT))) := by
  intro rem
  induction rem with
  | zero =>
    intro i stride output hw hb ho
    exact ⟨output, rfl, rfl, fun k _ => rfl, fun k _ => rfl,
      fun t ht => absurd ht (Nat.not_lt_zero t)⟩
  | succ rem ih =>
    intro i stride output hw hb ho
    rw [Nat.add_mul, Nat.one_mul] at hw
    have hb0 : o + i < bias.length := by omega
    have ho0 : o + i < output.length := by omega
    have hdot := dotLoop_eq_sum_zero Activate f n inputA inputB weight stride dT
      hA hB (by omega) (by omega)
    have hbiasD : bias.getD (o + i) dT = bias[o + i] := by
      rw [List.getD_eq_getElem?_getD, List.getElem?_eq_getElem hb0, Option.getD_some]
    have hstep : forwardLoop Activate f n inputA inputB weight bias o (rem + 1) i
        stride output =
        forwardLoop Activate f n inputA inputB weight bias o rem (i + 1)
          (stride + n * 2)
          (output.set (o + i) (((Finset.range n).sum fun t =>
            f (Activate (inputA.getD t dT)) * f (weight.getD (stride + t) dT) +
            f (Activate (inputB.getD t dT)) * f (weight.getD (n + stride + t) dT)) +
            f (bias.getD (o + i) dT))) := by
      rw [forwardLoop, hdot, Option.some_bind, List.getElem?_eq_getElem hb0,
        Option.some_bind, ← hbiasD]
      simp only [setChecked]
      rw [if_pos ho0, Option.some_bind]
    simp only [hstep]
    obtain ⟨out, hout, hlen, hlo, hhi, hval⟩ :=
      ih (i + 1) (stride + n * 2)
        (output.set (o + i) (((Finset.range n).sum fun t =>
          f (Activate (inputA.getD t dT)) * f (weight.getD (stride + t) dT) +
          f (Activate (inputB.getD t dT)) * f (weight.getD (n + stride + t) dT)) +
          f (bias.getD (o + i) dT)))
        (by omega) (by omega) (by rw [List.length_set]; omega)
    refine ⟨out, hout, ?_, ?_, ?_, ?_⟩
    · rw [hlen, List.length_set]
    · intro k hk
      rw [hlo k (by omega), List.getElem?_set_ne (by omega)]
    · intro k hk
      rw [hhi k (by omega), List.getElem?_set_ne (by omega)]
    · intro t ht
      cases t with
      | zero =>
        have h0 := hlo (o + i) (by omega)
        rw [List.getElem?_set_self ho0] at h0
        simp only [Nat.zero_mul, Nat.add_zero]
        exact h0
      | succ t =>
        have hvt := hval t (by omega)
        simp only [show o + i + (t + 1) = o + (i + 1) + t from by omega,
          show stride + (t + 1) * (n * 2) = stride + n * 2 + t * (n * 2) from by ring]
        exact hvt

/-- Claim C1: ActivateFlattenAndForward stores at output[o + i], for every
i below OutputSize, the dot product of the activated concatenated inputs
with weight block i plus bias[o + i], accumulated in the output type OT:
output[o + i] = (sum over j below InputSize of
Activate(inputA[j]) * weight[i * 2 * InputSize + j] +
Activate(inputB[j]) * weight[i * 2 * InputSize + InputSize + j]) + bias[o + i].
The instance InputSize 2, OutputSize 1, inputA [1, 2], inputB [3, 4],
identity activation, all weights one, bias [5], o 0 giving output 15 is
checked in the witness. -/
theorem ActivateFlattenAndForward_forward [AddCommMonoid OT] [Mul OT]
    (Activate : T → T) (f : T → OT) (n m : Nat)
    (inputA inputB weight bias : List T) (output : List OT) (o : Nat) (dT : T)
    (hA : inputA.length = n) (hB : inputB.length = n)
    (hw : n * 2 * m ≤ weight.length)
    (hb : o + m ≤ bias.length) (ho : o + m ≤ output.length) :
    ∃ out, ActivateFlattenAndForward Activate f n m inputA inputB weight bias
        output o = some out ∧
      ∀ i, i < m → out[o + i]? = some
        ((Finset.range n).sum (fun j =>
          f (Activate (inputA.getD j dT)) *
            f (weight.getD (i * 2 * n + j) dT) +
          f (Activate (inputB.getD j dT)) *
            f (weight.getD (i * 2 * n + n + j) dT)) +
         f (bias.getD (o + i) dT)) := by
  obtain ⟨out, hout, hlen, hlo, hhi, hval⟩ :=
    forwardLoop_eq Activate f n inputA inputB weight bias o dT
      (le_of_eq hA.symm) (le_of_eq hB.symm) m 0 0 output
      (by have h2 : m * (n * 2) = n * 2 * m := by ring
          omega)
      (by omega) (by omega)
  refine ⟨out, hout, ?_⟩
  intro i hi
  have h := hval i hi
  rw [show o + 0 + i = o + i from by omega] at h
  simp only [show ∀ j : Nat, 0 + i * (n * 2) + j = i * 2 * n + j from
      fun j => by ring,
    show ∀ j : Nat, n + (0 + i * (n * 2)) + j = i * 2 * n + n + j from
      fun j => by ring] at h
  exact h

theorem ActivateFlattenAndForward_forward_witness :
    (([1, 2] : List Int).length = 2 ∧ ([3, 4] : List Int).length = 2 ∧
     2 * 2 * 1 ≤ ([1, 1, 1, 1, 1, 1, 1, 1] : List Int).length ∧
     0 + 1 ≤ ([5] : List Int).length ∧ 0 + 1 ≤ ([0] : List Int).length) ∧
    (∃ out, ActivateFlattenAndForward (fun x => x) (fun x => x) 2 1
        ([1, 2] : List Int) [3, 4] [1, 1, 1, 1, 1, 1, 1, 1] [5] [0] 0 =
          some out ∧
      ∀ i, i < 1 → out[0 + i]? = some
        ((Finset.range 2).sum (fun j =>
          ([1, 2] : List Int).getD j 0 *
            ([1, 1, 1, 1, 1, 1, 1, 1] : List Int).getD (i * 2 * 2 + j) 0 +
          ([3, 4] : List Int).getD j 0 *
            ([1, 1, 1, 1, 1, 1, 1, 1] : List Int).getD (i * 2 * 2 + 2 + j) 0) +
         ([5] : List Int).getD (0 + i) 0)) ∧
    ActivateFlattenAndForward (fun x => x) (fun x => x) 2 1
      ([1, 2] : List Int) [3, 4] [1, 1, 1, 1, 1, 1, 1, 1] [5] [0] 0 =
        some [15] :=
  ⟨⟨by decide, by decide, by decide, by decide, by decide⟩,
    ActivateFlattenAndForward_forward (fun x => x) (fun x => x) 2 1
      [1, 2] [3, 4] [1, 1, 1, 1, 1, 1, 1, 1] [5] [0] 0 0
      (by decide) (by decide) (by decide) (by decide) (by decide),
    by decide⟩

/-- Claim C6: with a bias container of at least o + OutputSize elements and
an output buffer of at least o + OutputSize elements, every bias read and
output write of ActivateFlattenAndForward is in bounds: in this total
embedding, where out of range indexing returns none, the call returns some,
each output position in the interval from o to o + OutputSize excluded is
written, and every position outside that interval is left unchanged. -/
theorem ActivateFlattenAndForward_inbounds [AddCommMonoid OT] [Mul OT]
    (Activate : T → T) (f : T → OT) (n m : Nat)
    (inputA inputB weight bias : List T) (output : List OT) (o : Nat)
    (hA : inputA.length = n) (hB : inputB.length = n)
    (hw : n * 2 * m ≤ weight.length)
    (hb : o + m ≤ bias.length) (ho : o + m ≤ output.length) :
    ∃ out, ActivateFlattenAndForward Activate f n m inputA inputB weight bias
        output o = some out ∧
      out.length = output.length ∧
      (∀ k, k < o → out[k]? = output[k]?) ∧
      (∀ k, o + m ≤ k → out[k]? = output[k]?) ∧
      (∀ i, i < m → ∃ v, out[o + i]? = some v) := by
  rcases Nat.eq_zero_or_pos m with rfl | hm
  · exact ⟨output, rfl, rfl, fun k _ => rfl, fun k _ => rfl,
      fun i hi => absurd hi (by omega)⟩
  · have hbne : 0 < bias.length := by omega
    obtain ⟨out, hout, hlen, hlo, hhi, hval⟩ :=
      forwardLoop_eq Activate f n inputA inputB weight bias o bias[0]
        (le_of_eq hA.symm) (le_of_eq hB.symm) m 0 0 output
        (by have h2 : m * (n * 2) = n * 2 * m := by ring
            omega)
        (by omega) (by omega)
    refine ⟨out, hout, hlen, ?_, ?_, ?_⟩
    · intro k hk
      exact hlo k (by omega)
    · intro k hk
      exact hhi k (by omega)
    · intro i hi
      have h := hval i hi
      rw [show o + 0 + i = o + i from by omega] at h
      exact ⟨_, h⟩

theorem ActivateFlattenAndForward_inbounds_witness :
    (([2] : List Int).length = 1 ∧ ([3] : List Int).length = 1 ∧
     1 * 2 * 1 ≤ ([1, 1] : List Int).length ∧
     1 + 1 ≤ ([5, 6] : List Int).length ∧ 1 + 1 ≤ ([0, 0] : List Int).length) ∧
    (∃ out, ActivateFlattenAndForward (fun x => x) (fun x => x) 1 1
        ([2] : List Int) [3] [1, 1] [5, 6] [0, 0] 1 = some out ∧
      out.length = ([0, 0] : List Int).length ∧
      (∀ k, k < 1 → out[k]? = ([0, 0] : List Int)[k]?) ∧
      (∀ k, 1 + 1 ≤ k → out[k]? = ([0, 0] : List Int)[k]?) ∧
      (∀ i, i < 1 → ∃ v, out[1 + i]? = some v)) :=
  ⟨⟨by decide, by decide, by decide, by decide, by decide⟩,
    ActivateFlattenAndForward_inbounds (fun x => x) (fun x => x) 1 1
      [2] [3] [1, 1] [5, 6] [0, 0] 1 (by decide) (by decide) (by decide)
      (by decide) (by decide)⟩
